import Mathlib

/-!
A verification development for the `su-js-utils` utility library.

Each JavaScript function relevant to the specification is shallowly embedded
as an executable Lean definition operating on explicit data (lists, integers,
option types).  JavaScript numbers are modelled as `Int` where only integer
values are exercised; `undefined`/`null` are modelled with `Option`; code that
can throw is modelled with `Except`.  Theorems then settle the specified
properties against these embeddings.
-/

namespace SuJsUtils

/-! ## Array utilities (`src/arrayUtils/index.js`) -/

/-- Recursive core of `chunk`: repeatedly take `size` elements.
Mirrors the loop `for (let i = 0; i < arr.length; i += size)
chunks.push(arr.slice(i, i + size))`. -/
def chunkGo {α : Type} (size : Nat) (hsize : 1 ≤ size) : List α → List (List α)
  | [] => []
  | x :: rest => ((x :: rest).take size) :: chunkGo size hsize ((x :: rest).drop size)
termination_by l => l.length
decreasing_by simp; omega

/-- `chunk(arr, size = 1)`: `if (!Array.isArray(arr) || size < 1) return [];`
then the slicing loop.  The array is modelled as a `List`; `size` is a JS
number restricted to integers, modelled as `Int`. -/
def chunk {α : Type} (arr : List α) (size : Int) : List (List α) :=
  if h : size < 1 then [] else chunkGo size.toNat (by omega) arr

lemma chunkGo_join {α : Type} (size : Nat) (h : 1 ≤ size) (l : List α) :
    (chunkGo size h l).flatten = l := by
  have key : ∀ (n : Nat) (l : List α), l.length ≤ n → (chunkGo size h l).flatten = l := by
    intro n
    induction n with
    | zero =>
      intro l hl
      have hnil : l = [] := by
        cases l with
        | nil => rfl
        | cons a t => simp at hl
      subst hnil
      simp [chunkGo]
    | succ n ih =>
      intro l hl
      match l with
      | [] => simp [chunkGo]
      | x :: rest =>
        rw [chunkGo]
        have hdrop : ((x :: rest).drop size).length ≤ n := by
          simp
          simp at hl
          omega
        simp only [List.flatten_cons]
        rw [ih _ hdrop]
        exact List.take_append_drop size (x :: rest)
  exact key l.length l (Nat.le_refl _)

lemma chunkGo_mem_length {α : Type} (size : Nat) (h : 1 ≤ size) (l : List α) :
    ∀ g ∈ chunkGo size h l, g.length ≤ size ∧ g ≠ [] := by
  have key : ∀ (n : Nat) (l : List α), l.length ≤ n →
      ∀ g ∈ chunkGo size h l, g.length ≤ size ∧ g ≠ [] := by
    intro n
    induction n with
    | zero =>
      intro l hl g hg
      have hnil : l = [] := by
        cases l with
        | nil => rfl
        | cons a t => simp at hl
      subst hnil
      simp [chunkGo] at hg
    | succ n ih =>
      intro l hl g hg
      match l with
      | [] => simp [chunkGo] at hg
      | x :: rest =>
        rw [chunkGo] at hg
        rcases List.mem_cons.mp hg with hg | hg
        · subst hg
          constructor
          · simp
          · have : 0 < ((x :: rest).take size).length := by
              simp
              omega
            intro hcon
            rw [hcon] at this
            simp at this
        · apply ih ((x :: rest).drop size) _ g hg
          simp
          simp at hl
          omega
  exact key l.length l (Nat.le_refl _)

lemma chunkGo_eq_nil_iff {α : Type} (size : Nat) (h : 1 ≤ size) (l : List α) :
    chunkGo size h l = [] ↔ l = [] := by
  constructor
  · intro hc
    cases l with
    | nil => rfl
    | cons x rest => rw [chunkGo] at hc; simp at hc
  · intro hl
    subst hl
    rw [chunkGo]

lemma chunkGo_dropLast_length {α : Type} (size : Nat) (h : 1 ≤ size) (l : List α) :
    ∀ g ∈ (chunkGo size h l).dropLast, g.length = size := by
  have key : ∀ (n : Nat) (l : List α), l.length ≤ n →
      ∀ g ∈ (chunkGo size h l).dropLast, g.length = size := by
    intro n
    induction n with
    | zero =>
      intro l hl g hg
      have hnil : l = [] := by
        cases l with
        | nil => rfl
        | cons a t => simp at hl
      subst hnil
      simp [chunkGo] at hg
    | succ n ih =>
      intro l hl g hg
      match l with
      | [] => simp [chunkGo] at hg
      | x :: rest =>
        rw [chunkGo] at hg
        by_cases hrest : (x :: rest).drop size = []
        · rw [hrest] at hg
          rw [chunkGo] at hg
          simp at hg
        · have hne : chunkGo size h ((x :: rest).drop size) ≠ [] :=
            fun hcon => hrest ((chunkGo_eq_nil_iff size h _).mp hcon)
          rw [List.dropLast_cons_of_ne_nil hne] at hg
          rcases List.mem_cons.mp hg with hg | hg
          · subst hg
            have hlen : size < (x :: rest).length := by
              have := List.length_drop size (x :: rest)
              by_contra hcon
              push_neg at hcon
              apply hrest
              exact List.drop_eq_nil_of_le hcon
            simp at hlen ⊢
            omega
          · apply ih ((x :: rest).drop size) _ g hg
            simp
            simp at hl
            omega
  exact key l.length l (Nat.le_refl _)

/-- The comparator closure passed to `sort` inside `sortBy`:
`valueA`/`valueB` are the looked-up field values `a?.[key]`/`b?.[key]`,
where a missing field is JavaScript `undefined`, modelled as `none`.
Field values are compared with `<`/`>`; they are modelled as `Int`. -/
def sortByCmp (desc : Bool) (valueA valueB : Option Int) : Int :=
  match valueA, valueB with
  | none, none => 0
  | none, some _ => if desc then 1 else -1
  | some _, none => if desc then -1 else 1
  | some va, some vb =>
    let result : Int := if va < vb then -1 else if va > vb then 1 else 0
    if desc then -result else result

/-- The comparator as a boolean "may come before" relation: JavaScript's
`Array.prototype.sort` puts `a` no later than `b` whenever `cmp(a, b) ≤ 0`
(for a consistent comparator).  Records are modelled as pairs of an identity
tag and the value of the field named by `key` (`none` = `undefined`). -/
def sortByLe (desc : Bool) (a b : Nat × Option Int) : Bool :=
  sortByCmp desc a.2 b.2 ≤ 0

/-- `sortBy(arr, key, desc = false)`: `[...arr].sort(comparator)`.
ECMAScript requires `sort` to be stable and, for a consistent comparator,
to order the copy by the comparator, so the call is modelled as the stable
merge sort by `sortByLe`.  The spread copy means the input is not mutated,
which is inherent in this pure embedding. -/
def sortBy (arr : List (Nat × Option Int)) (desc : Bool) : List (Nat × Option Int) :=
  arr.mergeSort (sortByLe desc)

lemma sortByLe_trans (desc : Bool) (a b c : Nat × Option Int) :
    sortByLe desc a b → sortByLe desc b c → sortByLe desc a c := by
  rcases a with ⟨ia, va⟩
  rcases b with ⟨ib, vb⟩
  rcases c with ⟨ic, vc⟩
  rcases va with _ | va <;> rcases vb with _ | vb <;> rcases vc with _ | vc <;>
    cases desc <;> simp [sortByLe, sortByCmp] <;> split_ifs <;> omega

lemma sortByLe_total (desc : Bool) (a b : Nat × Option Int) :
    sortByLe desc a b || sortByLe desc b a := by
  rcases a with ⟨ia, va⟩
  rcases b with ⟨ib, vb⟩
  rcases va with _ | va <;> rcases vb with _ | vb <;>
    cases desc <;> simp [sortByLe, sortByCmp] <;> split_ifs <;> omega

lemma sortByLe_of_eq_snd (desc : Bool) (a b : Nat × Option Int) (h : a.2 = b.2) :
    sortByLe desc a b := by
  rcases a with ⟨ia, va⟩
  rcases b with ⟨ib, vb⟩
  simp at h
  subst h
  rcases va with _ | va <;> cases desc <;> simp [sortByLe, sortByCmp]

/-- C4: for every array `xs` and every integer `size ≥ 1`, `chunk(xs, size)`
returns consecutive groups each of length `size` except possibly a shorter
(nonempty) last group, and the concatenation of the groups equals `xs`;
for every `size < 1` the result is the empty array. -/
theorem C4_chunk_spec {α : Type} (xs : List α) (size : Int) :
    (1 ≤ size →
      (chunk xs size).flatten = xs ∧
      (∀ g ∈ chunk xs size, g.length ≤ size.toNat ∧ g ≠ []) ∧
      (∀ g ∈ (chunk xs size).dropLast, g.length = size.toNat)) ∧
    (size < 1 → chunk xs size = []) := by
  constructor
  · intro h1
    have hnot : ¬ size < 1 := by omega
    rw [chunk, dif_neg hnot]
    exact ⟨chunkGo_join _ _ _, chunkGo_mem_length _ _ _, chunkGo_dropLast_length _ _ _⟩
  · intro h1
    rw [chunk, dif_pos h1]

/-- Witness for C4 at `xs = [1,2,3,4,5]` with `size = 2` (and `size = 0` for
the degenerate branch). -/
theorem C4_chunk_spec_witness :
    (chunk [1, 2, 3, 4, 5] (2 : Int)).flatten = [1, 2, 3, 4, 5] ∧
    chunk ([1, 2, 3, 4, 5] : List Nat) (0 : Int) = [] :=
  ⟨((C4_chunk_spec [1, 2, 3, 4, 5] 2).1 (by decide)).1,
    (C4_chunk_spec [1, 2, 3, 4, 5] 0).2 (by decide)⟩

unseal List.merge List.mergeSort in
/-- C2 counterexample: the claim says `undefined` field values are placed
last when `desc` is false, but sorting `[{id 0, key 1}, {id 1, key undefined}]`
in ascending order places the `undefined` record first: the comparator
returns `-1` when `valueA === undefined`. -/
theorem C2_sortBy_counterexample :
    sortBy [(0, some 1), (1, none)] false = [(1, none), (0, some 1)] ∧
    sortBy [(0, some 1), (1, none)] false ≠ [(0, some 1), (1, none)] := by
  decide

/-- C2 (amended): `sortBy(seq, key, desc)` is a stable sort by the key field
in which elements whose key field is `undefined` are placed FIRST when `desc`
is false and LAST when `desc` is true; the result is a new array (the input,
spread-copied, is untouched — inherent in this pure embedding).  Stated as:
the result is a permutation of the input, consecutive elements are ordered by
the comparator, `undefined`-keyed elements all precede (ascending) or follow
(descending) defined-keyed ones, and records with any fixed key value keep
their relative order (stability). -/
theorem C2_sortBy_spec (l : List (Nat × Option Int)) (desc : Bool) :
    (sortBy l desc).Perm l ∧
    (sortBy l desc).Pairwise (fun a b => sortByCmp desc a.2 b.2 ≤ 0) ∧
    (desc = false → (sortBy l desc).Pairwise (fun a b => b.2 = none → a.2 = none)) ∧
    (desc = true → (sortBy l desc).Pairwise (fun a b => a.2 = none → b.2 = none)) ∧
    (∀ v : Option Int,
      (sortBy l desc).filter (fun x => x.2 == v) = l.filter (fun x => x.2 == v)) := by
  have hsorted : (sortBy l desc).Pairwise (fun a b => sortByLe desc a b) :=
    List.sorted_mergeSort (sortByLe_trans desc) (sortByLe_total desc) l
  have hcmp : (sortBy l desc).Pairwise (fun a b => sortByCmp desc a.2 b.2 ≤ 0) :=
    hsorted.imp (fun h => by simpa [sortByLe] using h)
  refine ⟨List.mergeSort_perm l _, hcmp, ?_, ?_, ?_⟩
  · intro hdesc
    subst hdesc
    refine hcmp.imp ?_
    intro a b h hb
    rcases ha : a.2 with _ | va
    · rfl
    · rw [ha, hb] at h
      simp [sortByCmp] at h
  · intro hdesc
    subst hdesc
    refine hcmp.imp ?_
    intro a b h ha
    rcases hb : b.2 with _ | vb
    · rfl
    · rw [ha, hb] at h
      simp [sortByCmp] at h
  · intro v
    have hall : ∀ a ∈ l.filter (fun x => x.2 == v), a.2 = v := by
      intro a ha
      have := (List.mem_filter.mp ha).2
      simpa using this
    have hpair : (l.filter (fun x => x.2 == v)).Pairwise (fun a b => sortByLe desc a b) := by
      apply List.pairwise_of_forall_mem_list
      intro a ha b hb
      exact sortByLe_of_eq_snd desc a b ((hall a ha).trans (hall b hb).symm)
    have hsub : List.Sublist (l.filter (fun x => x.2 == v)) (sortBy l desc) :=
      List.sublist_mergeSort (sortByLe_trans desc) (sortByLe_total desc)
        hpair (List.filter_sublist l)
    have hperm : ((sortBy l desc).filter (fun x => x.2 == v)).Perm
        (l.filter (fun x => x.2 == v)) :=
      (List.mergeSort_perm l _).filter _
    have hself : (l.filter (fun x => x.2 == v)).filter (fun x => x.2 == v) =
        l.filter (fun x => x.2 == v) := by
      apply List.filter_eq_self.mpr
      intro a ha
      simpa using hall a ha
    have h2 : List.Sublist (l.filter (fun x => x.2 == v))
        ((sortBy l desc).filter (fun x => x.2 == v)) := by
      have := hsub.filter (fun x => x.2 == v)
      rwa [hself] at this
    exact (h2.eq_of_length hperm.length_eq.symm).symm

/-- Witness for C2 applying the amended theorem at concrete inputs for both
values of `desc`. -/
theorem C2_sortBy_spec_witness :
    (sortBy [(0, some 2), (1, none)] false).Perm [(0, some 2), (1, none)] ∧
    (sortBy [(0, some 2), (1, none)] false).Pairwise (fun a b => b.2 = none → a.2 = none) ∧
    (sortBy [(0, some 2), (1, none)] true).Pairwise (fun a b => a.2 = none → b.2 = none) :=
  ⟨(C2_sortBy_spec [(0, some 2), (1, none)] false).1,
    (C2_sortBy_spec [(0, some 2), (1, none)] false).2.2.1 rfl,
    (C2_sortBy_spec [(0, some 2), (1, none)] true).2.2.2.1 rfl⟩

/-! ## String utilities (`src/stringUtils/index.js`)

The string utilities (apart from `capitalize`) do not guard their string
argument, so property accesses such as `str.length`, `str.replace`, `str.slice`
throw a `TypeError` when the argument is `null`.  The argument is therefore
modelled as `Option (List Char)` (`none` = JS `null`) and results as `Except`.
JavaScript's Unicode-aware pieces (`toLowerCase`, `\s`) are modelled on their
ASCII fragment, which is all the library's regexes `[A-Z]`/`[a-z]` touch. -/

/-- JavaScript exception kinds thrown by the modelled functions. -/
inductive JSError where
  | typeError
  | rangeError
deriving DecidableEq

/-- JavaScript strings, modelled as lists of characters. -/
abbrev JSStr := List Char

/-- The `String(x)` coercion applied by `Array.prototype.join` to its
separator: `String(null) === "null"`. -/
def jsStringOf : Option JSStr → JSStr
  | none => "null".data
  | some s => s

/-- `String.prototype.slice(start, end)` index normalisation: negative
indices count from the end, then both are clamped to `[0, length]`. -/
def jsSlice (s : JSStr) (start stop : Int) : JSStr :=
  let len : Int := s.length
  let start' := if start < 0 then max 0 (len + start) else min start len
  let stop' := if stop < 0 then max 0 (len + stop) else min stop len
  if start' < stop' then (s.take stop'.toNat).drop start'.toNat else []

/-- `truncate(str, maxLength, suffix = "...")`: accessing `str.length` on
`null` throws; otherwise return `str` if short enough, else
`str.slice(0, maxLength - suffix.length) + suffix`. -/
def truncate (str : Option JSStr) (maxLength : Int) (suffix : JSStr) :
    Except JSError JSStr :=
  match str with
  | none => .error .typeError
  | some s =>
    if (s.length : Int) ≤ maxLength then .ok s
    else .ok (jsSlice s 0 (maxLength - suffix.length) ++ suffix)

/-- `trim(str, chars = " ")`: strips the regexp `^[chars]+|[chars]+$`.
`chars` is modelled as a literal character set (the library is not called
with regex metacharacters).  `str.replace` on `null` throws. -/
def trim (str : Option JSStr) (chars : JSStr) : Except JSError JSStr :=
  match str with
  | none => .error .typeError
  | some s =>
    .ok (((s.dropWhile (chars.contains ·)).reverse.dropWhile (chars.contains ·)).reverse)

/-- `repeat(str, count)`: `if (count < 0) return "";` then
`new Array(count + 1).join(str)` — `count + 1` array slots joined by `str`
yield `count` copies; `join` coerces a `null` separator to `"null"`.
(The engine's array-length cap is not modelled.) -/
def repeatStr (str : Option JSStr) (count : Int) : Except JSError JSStr :=
  if count < 0 then .ok []
  else .ok (List.flatten (List.replicate count.toNat (jsStringOf str)))

/-- `camelToKebab(str)`: `str.replace(/([A-Z])/g, "-$1").toLowerCase()`.
`str.replace` on `null` throws. -/
def camelToKebab (str : Option JSStr) : Except JSError JSStr :=
  match str with
  | none => .error .typeError
  | some s =>
    .ok ((s.flatMap (fun c => if c.isUpper then ['-', c] else [c])).map Char.toLower)

/-- Global scan of `str.replace` with the pattern "dash followed by a
captured lowercase letter" and replacement `letter.toUpperCase()`. -/
def kebabGo : JSStr → JSStr
  | [] => []
  | '-' :: c :: rest =>
    if c.isLower then c.toUpper :: kebabGo rest
    else '-' :: kebabGo (c :: rest)
  | c :: rest => c :: kebabGo rest

/-- `kebabToCamel(str)`: uppercases each lowercase letter preceded by `-`,
dropping the dash.  `str.replace` on `null` throws. -/
def kebabToCamel (str : Option JSStr) : Except JSError JSStr :=
  match str with
  | none => .error .typeError
  | some s => .ok (kebabGo s)

/-- The `entityMap` lookup of `escape` for the characters matched by
`/[&<>"'\/]/g`. -/
def escapeChar (c : Char) : JSStr :=
  if c = '&' then "&amp;".data
  else if c = '<' then "&lt;".data
  else if c = '>' then "&gt;".data
  else if c = '"' then "&quot;".data
  else if c.toNat = 39 then "&#39;".data
  else if c = '/' then "&#x2F;".data
  else [c]

/-- `escape(str)`: HTML-entity escaping.  `str.replace` on `null` throws. -/
def escape (str : Option JSStr) : Except JSError JSStr :=
  match str with
  | none => .error .typeError
  | some s => .ok (s.flatMap escapeChar)

/-- `reverse(str)`: `str.split("").reverse().join("")`.  `str.split` on
`null` throws. -/
def reverse (str : Option JSStr) : Except JSError JSStr :=
  match str with
  | none => .error .typeError
  | some s => .ok s.reverse

/-- `pad(str, length, chars = " ", end = true)`: pads to `length` using
`repeat(chars, Math.ceil(diff / chars.length)).slice(0, diff)`.
`str.length` on `null` throws; an empty `chars` makes the ceiling `Infinity`
and `new Array(Infinity + 1)` throws a `RangeError`. -/
def pad (str : Option JSStr) (targetLength : Int) (chars : JSStr) (atEnd : Bool) :
    Except JSError JSStr :=
  match str with
  | none => .error .typeError
  | some s =>
    let diff : Int := targetLength - s.length
    if diff ≤ 0 then .ok s
    else if chars.length = 0 then .error .rangeError
    else
      let n : Nat := (diff.toNat + chars.length - 1) / chars.length
      let padding := (List.flatten (List.replicate n chars)).take diff.toNat
      .ok (if atEnd then s ++ padding else padding ++ s)

/-- `startsWith(str, searchStr, position = 0)`:
`str.slice(position, position + searchStr.length) === searchStr`.
`str.slice` on `null` throws. -/
def startsWith (str : Option JSStr) (searchStr : JSStr) (position : Int) :
    Except JSError Bool :=
  match str with
  | none => .error .typeError
  | some s => .ok (jsSlice s position (position + searchStr.length) == searchStr)

/-- `String.prototype.lastIndexOf`: the largest index `i ≤ s.length` at which
`search` occurs (`s.length` for the empty search), else `-1`. -/
def lastIndexOf (s search : JSStr) : Int :=
  (List.range (s.length + 1)).foldl
    (fun acc i => if search.isPrefixOf (s.drop i) then (i : Int) else acc) (-1)

/-- `endsWith(str, searchStr)`: `lastIndex !== -1 && lastIndex === str.length
- searchStr.length`.  `str.lastIndexOf` on `null` throws. -/
def endsWith (str : Option JSStr) (searchStr : JSStr) : Except JSError Bool :=
  match str with
  | none => .error .typeError
  | some s =>
    let lastIndex := lastIndexOf s searchStr
    .ok (lastIndex ≠ -1 ∧ lastIndex = (s.length : Int) - searchStr.length : Bool)

/-- `toSnakeCase(str)`: prefix each capital with `_`, lowercase everything,
then drop a single leading `_`.  `str.replace` on `null` throws. -/
def toSnakeCase (str : Option JSStr) : Except JSError JSStr :=
  match str with
  | none => .error .typeError
  | some s =>
    let t := (s.flatMap (fun c => if c.isUpper then ['_', c] else [c])).map Char.toLower
    .ok (match t with
      | '_' :: rest => rest
      | other => other)

/-- The ASCII fragment of the whitespace class `\s` / `String.prototype.trim`
(all the whitespace the library's callers use). -/
def isJsWhitespace (c : Char) : Bool :=
  c == ' ' || c == '\t' || c == '\n' || c == '\r'

/-- Count of maximal non-whitespace runs (`inWord` tracks whether the scan is
inside a run). -/
def countRunsGo : JSStr → Bool → Nat
  | [], _ => 0
  | c :: rest, inWord =>
    if isJsWhitespace c then countRunsGo rest false
    else (if inWord then 0 else 1) + countRunsGo rest true

/-- `wordCount(str)`: `str.trim().split(/\s+/).length` — `1` for the empty
trimmed string (splitting `""` gives `[""]`), else the number of
whitespace-separated words.  `str.trim` on `null` throws. -/
def wordCount (str : Option JSStr) : Except JSError Int :=
  match str with
  | none => .error .typeError
  | some s =>
    let t := ((s.dropWhile isJsWhitespace).reverse.dropWhile isJsWhitespace).reverse
    if t = [] then .ok 1 else .ok (countRunsGo t false)

/-- C5 counterexample: `camelToKebab(null)` evaluates `null.replace`, which
throws a `TypeError` — the claim says no listed string utility ever raises
on a `null` argument. -/
theorem C5_string_null_counterexample :
    camelToKebab none = .error .typeError := rfl

/-- C5 (amended): of the listed string utilities, all except `repeat` throw a
`TypeError` when called with `null` for the string argument; `repeat` does not
throw — `Array.prototype.join` coerces the `null` separator to the string
`"null"` (and returns `""` for a negative count without touching `str`). -/
theorem C5_string_null_spec :
    ∀ (maxLength position targetLength : Int) (suffix chars searchStr : JSStr)
      (atEnd : Bool),
      truncate none maxLength suffix = .error .typeError ∧
      trim none chars = .error .typeError ∧
      camelToKebab none = .error .typeError ∧
      kebabToCamel none = .error .typeError ∧
      escape none = .error .typeError ∧
      reverse none = .error .typeError ∧
      pad none targetLength chars atEnd = .error .typeError ∧
      startsWith none searchStr position = .error .typeError ∧
      endsWith none searchStr = .error .typeError ∧
      toSnakeCase none = .error .typeError ∧
      wordCount none = .error .typeError ∧
      repeatStr none 2 = .ok "nullnull".data ∧
      repeatStr none (-1) = .ok "".data := by
  intro maxLength position targetLength suffix chars searchStr atEnd
  refine ⟨rfl, rfl, rfl, rfl, rfl, rfl, rfl, rfl, rfl, rfl, rfl, rfl, rfl⟩

/-! ## Validation utilities (`src/verifyUtils/index.js`) -/

/-- The regex `\d` applied by `test`: some ASCII digit occurs. -/
def reDigit (p : JSStr) : Bool := p.any Char.isDigit

/-- The regex `[a-zA-Z]`: some ASCII letter occurs. -/
def reLetter (p : JSStr) : Bool := p.any (fun c => c.isLower || c.isUpper)

/-- The regex `[a-z]`. -/
def reLower (p : JSStr) : Bool := p.any Char.isLower

/-- The regex `[A-Z]`. -/
def reUpper (p : JSStr) : Bool := p.any Char.isUpper

/-- The special-character class of the password validators:
`!@#$%^&*(),.?":{}|<>` (the two braces written via their code points). -/
def isSpecialChar (c : Char) : Bool :=
  "!@#$%^&*(),.?\":|<>".data.contains c || c.toNat = 123 || c.toNat = 125

/-- The special-character regex test. -/
def reSpecial (p : JSStr) : Bool := p.any isSpecialChar

/-- The options record destructured by `validatePassword`, with its
destructuring defaults already resolved (`minLength = 8`, all requirement
flags `true`). -/
structure PasswordOptions where
  minLength : Int
  requireNumber : Bool
  requireLetter : Bool
  requireLowerCase : Bool
  requireUpperCase : Bool
  requireSpecialChar : Bool

/-- The `{}` default: `minLength 8`, every requirement enabled. -/
def defaultOptions : PasswordOptions := ⟨8, true, true, true, true, true⟩

/-- The `details` sub-record of `PasswordValidationResult`. -/
structure PasswordDetails where
  length : Bool
  hasNumber : Bool
  hasLetter : Bool
  hasLowerCase : Bool
  hasUpperCase : Bool
  hasSpecialChar : Bool

/-- The result record of `validatePassword` (string-password path). -/
structure PasswordValidationResult where
  isValid : Bool
  message : JSStr
  details : PasswordDetails
  requirements : List JSStr

/-- The template literal `密码长度至少为 ${minLength} 个字符`. -/
def lengthRequirementMsg (minLength : Int) : JSStr :=
  "密码长度至少为 ".data ++ (toString minLength).data ++ " 个字符".data

/-- `validatePassword(password, options)` for a string `password` (the
non-string guard is outside the claims): computes the `details` flags, then
walks the requirement `if`-chain accumulating `requirements` and clearing
`isValid`, which starts as `details.length`. -/
def validatePassword (password : JSStr) (options : PasswordOptions) :
    PasswordValidationResult :=
  let details : PasswordDetails :=
    { length := decide ((password.length : Int) ≥ options.minLength)
      hasNumber := reDigit password
      hasLetter := reLetter password
      hasLowerCase := reLower password
      hasUpperCase := reUpper password
      hasSpecialChar := reSpecial password }
  let step0 : Bool × List JSStr :=
    (details.length,
      if details.length then [] else [lengthRequirementMsg options.minLength])
  let step1 :=
    if options.requireNumber && !details.hasNumber then
      (false, step0.2 ++ ["必须包含数字".data]) else step0
  let step2 :=
    if options.requireLetter && !details.hasLetter then
      (false, step1.2 ++ ["必须包含字母".data]) else step1
  let step3 :=
    if options.requireLowerCase && !details.hasLowerCase then
      (false, step2.2 ++ ["必须包含小写字母".data]) else step2
  let step4 :=
    if options.requireUpperCase && !details.hasUpperCase then
      (false, step3.2 ++ ["必须包含大写字母".data]) else step3
  let step5 :=
    if options.requireSpecialChar && !details.hasSpecialChar then
      (false, step4.2 ++ ["必须包含特殊字符".data]) else step4
  { isValid := step5.1
    message :=
      if step5.1 then "密码符合要求".data
      else "密码不符合以下要求：".data ++ List.intercalate "、".data step5.2
    details := details
    requirements := step5.2 }

/-- C1: for every string password and options record, `isValid` is true iff
the `length` detail flag is true and, for each enabled requirement, the
corresponding detail flag is true. -/
theorem C1_validatePassword_isValid_iff (password : JSStr)
    (options : PasswordOptions) :
    (validatePassword password options).isValid = true ↔
      ((validatePassword password options).details.length = true ∧
        (options.requireNumber = true →
          (validatePassword password options).details.hasNumber = true) ∧
        (options.requireLetter = true →
          (validatePassword password options).details.hasLetter = true) ∧
        (options.requireLowerCase = true →
          (validatePassword password options).details.hasLowerCase = true) ∧
        (options.requireUpperCase = true →
          (validatePassword password options).details.hasUpperCase = true) ∧
        (options.requireSpecialChar = true →
          (validatePassword password options).details.hasSpecialChar = true)) := by
  rcases options with ⟨minLength, rn, rl, rlc, ruc, rsc⟩
  simp only [validatePassword]
  split_ifs <;> simp_all

/-- Witness for C1 at the spec example password and the default options. -/
theorem C1_validatePassword_witness :
    (validatePassword "Password123!".data defaultOptions).isValid = true ↔
      ((validatePassword "Password123!".data defaultOptions).details.length = true ∧
        (defaultOptions.requireNumber = true →
          (validatePassword "Password123!".data defaultOptions).details.hasNumber = true) ∧
        (defaultOptions.requireLetter = true →
          (validatePassword "Password123!".data defaultOptions).details.hasLetter = true) ∧
        (defaultOptions.requireLowerCase = true →
          (validatePassword "Password123!".data defaultOptions).details.hasLowerCase = true) ∧
        (defaultOptions.requireUpperCase = true →
          (validatePassword "Password123!".data defaultOptions).details.hasUpperCase = true) ∧
        (defaultOptions.requireSpecialChar = true →
          (validatePassword "Password123!".data defaultOptions).details.hasSpecialChar = true)) :=
  C1_validatePassword_isValid_iff "Password123!".data defaultOptions

/-- The `details` record of `getPasswordStrength` (no `hasLetter` flag). -/
structure PasswordStrengthDetails where
  length : Bool
  hasNumber : Bool
  hasLowerCase : Bool
  hasUpperCase : Bool
  hasSpecialChar : Bool

/-- The result record of `getPasswordStrength` (string path). -/
structure PasswordStrengthResult where
  score : Int
  level : JSStr
  message : JSStr
  details : PasswordStrengthDetails

/-- `getPasswordStrength(password)` for a string password: length base score
capped at 2, 1 point each for digit/lower/upper, 2 for a special character,
plus `Math.max(0, varietyCount - 2)` where `varietyCount` counts the true
flags of the whole `details` record (including the `length` flag, in
`Object.values` insertion order), then the level thresholds. -/
def getPasswordStrength (password : JSStr) : PasswordStrengthResult :=
  let details : PasswordStrengthDetails :=
    { length := decide (password.length ≥ 8)
      hasNumber := reDigit password
      hasLowerCase := reLower password
      hasUpperCase := reUpper password
      hasSpecialChar := reSpecial password }
  let score1 : Int := 0 + min 2 ((password.length / 4 : Nat) : Int)
  let score2 := if details.hasNumber then score1 + 1 else score1
  let score3 := if details.hasLowerCase then score2 + 1 else score2
  let score4 := if details.hasUpperCase then score3 + 1 else score3
  let score5 := if details.hasSpecialChar then score4 + 2 else score4
  let varietyCount : Int :=
    (([details.length, details.hasNumber, details.hasLowerCase,
        details.hasUpperCase, details.hasSpecialChar].countP id : Nat) : Int)
  let score6 := score5 + max 0 (varietyCount - 2)
  let level : JSStr :=
    if score6 ≤ 2 then "weak".data
    else if score6 ≤ 4 then "medium".data
    else if score6 ≤ 6 then "strong".data
    else "very-strong".data
  let message : JSStr :=
    if score6 ≤ 2 then "弱密码".data
    else if score6 ≤ 4 then "中等强度".data
    else if score6 ≤ 6 then "强密码".data
    else "非常强的密码".data
  { score := score6, level := level, message := message, details := details }

/-- The score formula exactly as claim C6 words it: base `min(2, ⌊len/4⌋)`,
1 point per satisfied category among number/lowercase/uppercase, 2 points for
a special character, and a bonus of the number of satisfied CATEGORIES beyond
two — counting only the four character classes. -/
def claimedScore (p : JSStr) : Int :=
  min 2 ((p.length / 4 : Nat) : Int)
    + (if reDigit p then 1 else 0)
    + (if reLower p then 1 else 0)
    + (if reUpper p then 1 else 0)
    + (if reSpecial p then 2 else 0)
    + max 0 ((([reDigit p, reLower p, reUpper p, reSpecial p].countP id : Nat) : Int) - 2)

/-- The amended score formula: identical except that the diversity bonus
counts the satisfied flags of the whole `details` record — the `length ≥ 8`
flag together with the four character classes. -/
def amendedScore (p : JSStr) : Int :=
  min 2 ((p.length / 4 : Nat) : Int)
    + (if reDigit p then 1 else 0)
    + (if reLower p then 1 else 0)
    + (if reUpper p then 1 else 0)
    + (if reSpecial p then 2 else 0)
    + max 0 ((([decide (p.length ≥ 8), reDigit p, reLower p, reUpper p,
        reSpecial p].countP id : Nat) : Int) - 2)

/-- The deterministic level step function of the score, as C6 states the
thresholds. -/
def claimedLevel (score : Int) : JSStr :=
  if score ≤ 2 then "weak".data
  else if score ≤ 4 then "medium".data
  else if score ≤ 6 then "strong".data
  else "very-strong".data

/-- C6 counterexample: for `"aaaa1111"` (length 8, digits and lowercase only)
the code's score is 5 — the variety bonus also counts the `length ≥ 8` flag —
while the claimed formula gives 4; the claimed thresholds would then even
yield a different level (`strong` vs `medium`). -/
theorem C6_strength_counterexample :
    (getPasswordStrength "aaaa1111".data).score = 5 ∧
    claimedScore "aaaa1111".data = 4 ∧
    (getPasswordStrength "aaaa1111".data).level ≠
      claimedLevel (claimedScore "aaaa1111".data) := by
  refine ⟨by decide, by decide, by decide⟩

/-- C6 (amended): for every string password the score equals the amended
formula (diversity bonus over all five `details` flags, including
`length ≥ 8`), and the level is the deterministic step function of the score
with thresholds ≤2 weak, ≤4 medium, ≤6 strong, else very-strong. -/
theorem C6_strength_spec (password : JSStr) :
    (getPasswordStrength password).score = amendedScore password ∧
    (getPasswordStrength password).level =
      claimedLevel ((getPasswordStrength password).score) := by
  constructor
  · simp only [getPasswordStrength, amendedScore]
    cases reDigit password <;> cases reLower password <;>
      cases reUpper password <;> cases reSpecial password <;>
      cases decide (password.length ≥ 8) <;> simp
  · rfl

/-- The score contribution beyond the length base: category points plus the
variety bonus, as a function of the five detail flags. -/
def strengthExtra (b n l u s : Bool) : Int :=
  (if n then 1 else 0) + (if l then 1 else 0) + (if u then 1 else 0)
    + (if s then 2 else 0)
    + max 0 ((([b, n, l, u, s].countP id : Nat) : Int) - 2)

lemma strength_score_split (p : JSStr) :
    (getPasswordStrength p).score =
      min 2 ((p.length / 4 : Nat) : Int) +
        strengthExtra (decide (p.length ≥ 8)) (reDigit p) (reLower p)
          (reUpper p) (reSpecial p) := by
  simp only [getPasswordStrength, strengthExtra]
  cases reDigit p <;> cases reLower p <;> cases reUpper p <;>
    cases reSpecial p <;> cases decide (p.length ≥ 8) <;> simp <;> omega

lemma strengthExtra_mono : ∀ b n1 n2 l1 l2 u1 u2 s1 s2 : Bool,
    (n1 = true → n2 = true) → (l1 = true → l2 = true) →
    (u1 = true → u2 = true) → (s1 = true → s2 = true) →
    strengthExtra b n1 l1 u1 s1 ≤ strengthExtra b n2 l2 u2 s2 := by decide

/-- C10: holding length constant, the score is monotone in the set of
satisfied character classes. -/
theorem C10_strength_monotone (p1 p2 : JSStr)
    (hlen : p1.length = p2.length)
    (hn : reDigit p1 = true → reDigit p2 = true)
    (hl : reLower p1 = true → reLower p2 = true)
    (hu : reUpper p1 = true → reUpper p2 = true)
    (hs : reSpecial p1 = true → reSpecial p2 = true) :
    (getPasswordStrength p1).score ≤ (getPasswordStrength p2).score := by
  rw [strength_score_split p1, strength_score_split p2, hlen]
  exact add_le_add_left (strengthExtra_mono _ _ _ _ _ _ _ _ _ hn hl hu hs) _

/-- Witness for C10: `"aaaaaaaa"` (lowercase only) versus `"aaaaaaa1"`
(lowercase and digit), both of length 8. -/
theorem C10_strength_monotone_witness :
    (getPasswordStrength "aaaaaaaa".data).score ≤
      (getPasswordStrength "aaaaaaa1".data).score :=
  C10_strength_monotone "aaaaaaaa".data "aaaaaaa1".data (by decide) (by decide)
    (by decide) (by decide) (by decide)

/-! ## Date utilities (`src/dateUtils/index.js`)

A JavaScript `Date` stores an epoch-millisecond time value that the library
reads and writes through the local-time accessors.  The host timezone is
fixed to UTC (no claim crosses a DST boundary), and a valid `Date` is
represented by its civil components; the epoch-day conversions are the
standard `days_from_civil` / `civil_from_days` calendar algorithms that host
`Date` implementations realise. -/

/-- A valid `Date` value by its (local) civil components: `month` is 0-based
as returned by `getMonth`, `day` is 1-based. -/
structure DateVal where
  year : Int
  month : Int
  day : Int
  hour : Int
  minute : Int
  second : Int
  ms : Int
deriving DecidableEq

/-- Days since 1970-01-01 of civil date `(y, m, d)` with `m` 1-based
(`days_from_civil`). -/
def daysFromCivil (y m d : Int) : Int :=
  let y2 := if m ≤ 2 then y - 1 else y
  let era := Int.fdiv y2 400
  let yoe := y2 - era * 400
  let mp := if m > 2 then m - 3 else m + 9
  let doy := Int.ediv (153 * mp + 2) 5 + d - 1
  let doe := yoe * 365 + Int.ediv yoe 4 - Int.ediv yoe 100 + doy
  era * 146097 + doe - 719468

/-- Civil date `(y, m, d)` (`m` 1-based) of an epoch day number
(`civil_from_days`). -/
def civilFromDays (z : Int) : Int × Int × Int :=
  let z2 := z + 719468
  let era := Int.fdiv z2 146097
  let doe := z2 - era * 146097
  let yoe := Int.ediv (doe - Int.ediv doe 1460 + Int.ediv doe 36524 - Int.ediv doe 146096) 365
  let y := yoe + era * 400
  let doy := doe - (365 * yoe + Int.ediv yoe 4 - Int.ediv yoe 100)
  let mp := Int.ediv (5 * doy + 2) 153
  let d := doy - Int.ediv (153 * mp + 2) 5 + 1
  let m := if mp < 10 then mp + 3 else mp - 9
  (if m ≤ 2 then y + 1 else y, m, d)

/-- ECMAScript `MakeDay(year, month, date)` with `month` 0-based: normalise
the month into the year, then count from the first of that month. -/
def mkDay (y m d : Int) : Int :=
  let ym := y + Int.fdiv m 12
  let mn := Int.emod m 12
  daysFromCivil ym (mn + 1) 1 + (d - 1)

/-- The millisecond offset within the day. -/
def timeOfDay (dv : DateVal) : Int :=
  dv.hour * 3600000 + dv.minute * 60000 + dv.second * 1000 + dv.ms

/-- `Date.prototype.getTime`: the epoch-millisecond time value. -/
def getTime (dv : DateVal) : Int :=
  mkDay dv.year dv.month dv.day * 86400000 + timeOfDay dv

/-- The `Date` value holding epoch milliseconds `t`, as components. -/
def fromTime (t : Int) : DateVal :=
  let days := Int.fdiv t 86400000
  let msod := Int.emod t 86400000
  let c := civilFromDays days
  { year := c.1, month := c.2.1 - 1, day := c.2.2
    hour := Int.ediv msod 3600000
    minute := Int.ediv (Int.emod msod 3600000) 60000
    second := Int.ediv (Int.emod msod 60000) 1000
    ms := Int.emod msod 1000 }

/-- `Date.prototype.getDay`: weekday 0 (Sunday) … 6; epoch day 0 was a
Thursday (4). -/
def getDay (dv : DateVal) : Int :=
  Int.emod (mkDay dv.year dv.month dv.day + 4) 7

/-- The normalised `Date` obtained by writing calendar components
`(y, m 0-based, day)` while keeping the time of day — the effect of the
`setFullYear`/`setMonth`/`setDate` writes in `add`. -/
def setComponents (y m day : Int) (dv : DateVal) : DateVal :=
  fromTime (mkDay y m day * 86400000 + timeOfDay dv)

/-- `add(date, amount, unit = "day")` called with a (valid) `Date` argument.
`toDate` returns the very same `Date` object, so the `d.setX(...)` call
mutates the caller's `Date` before `new Date(...)` wraps the returned time
value.  The result is the pair (value of the returned `Date`, value held by
the argument after the call); only the unrecognised-unit branch copies
without mutating. -/
def add (dv : DateVal) (amount : Int) (unit : String) : DateVal × DateVal :=
  match unit with
  | "year" =>
    let r := setComponents (dv.year + amount) dv.month dv.day dv
    (r, r)
  | "month" =>
    let r := setComponents dv.year (dv.month + amount) dv.day dv
    (r, r)
  | "week" =>
    let r := setComponents dv.year dv.month (dv.day + amount * 7) dv
    (r, r)
  | "day" =>
    let r := setComponents dv.year dv.month (dv.day + amount) dv
    (r, r)
  | "hour" =>
    let r := fromTime (mkDay dv.year dv.month dv.day * 86400000
      + (dv.hour + amount) * 3600000 + dv.minute * 60000 + dv.second * 1000 + dv.ms)
    (r, r)
  | "minute" =>
    let r := fromTime (mkDay dv.year dv.month dv.day * 86400000
      + dv.hour * 3600000 + (dv.minute + amount) * 60000 + dv.second * 1000 + dv.ms)
    (r, r)
  | "second" =>
    let r := fromTime (mkDay dv.year dv.month dv.day * 86400000
      + dv.hour * 3600000 + dv.minute * 60000 + (dv.second + amount) * 1000 + dv.ms)
    (r, r)
  | _ => (dv, dv)

/-- `subtract(date, amount, unit)`: `add(date, -amount, unit)`. -/
def subtract (dv : DateVal) (amount : Int) (unit : String) : DateVal × DateVal :=
  add dv (-amount) unit

/-- `diff(date1, date2, unit = "day")` on valid dates: calendar-component
subtraction for year/month, `Math.floor` of the millisecond-difference
quotient for the remaining units, the raw difference otherwise. -/
def diff (d1 d2 : DateVal) (unit : String) : Int :=
  let diffMs := getTime d2 - getTime d1
  match unit with
  | "year" => d2.year - d1.year
  | "month" => (d2.year - d1.year) * 12 + d2.month - d1.month
  | "week" => Int.fdiv diffMs (7 * 24 * 60 * 60 * 1000)
  | "day" => Int.fdiv diffMs (24 * 60 * 60 * 1000)
  | "hour" => Int.fdiv diffMs (60 * 60 * 1000)
  | "minute" => Int.fdiv diffMs (60 * 1000)
  | "second" => Int.fdiv diffMs 1000
  | _ => diffMs

/-- The millisecond-difference division exactly as claim C7 words it:
truncated toward zero (`Int.tdiv`); year/month as calendar subtraction. -/
def claimedDiff (d1 d2 : DateVal) (unit : String) : Int :=
  let diffMs := getTime d2 - getTime d1
  match unit with
  | "year" => d2.year - d1.year
  | "month" => (d2.year - d1.year) * 12 + d2.month - d1.month
  | "week" => Int.tdiv diffMs (7 * 24 * 60 * 60 * 1000)
  | "day" => Int.tdiv diffMs (24 * 60 * 60 * 1000)
  | "hour" => Int.tdiv diffMs (60 * 60 * 1000)
  | "minute" => Int.tdiv diffMs (60 * 1000)
  | "second" => Int.tdiv diffMs 1000
  | _ => diffMs

/-- The decimal digit character for `k ≤ 9`. -/
def digitChar (k : Nat) : Char :=
  if k = 0 then '0' else if k = 1 then '1' else if k = 2 then '2'
  else if k = 3 then '3' else if k = 4 then '4' else if k = 5 then '5'
  else if k = 6 then '6' else if k = 7 then '7' else if k = 8 then '8' else '9'

/-- Decimal digits of a natural number (`String(num)` for `num ≥ 0`). -/
def natDigits (n : Nat) : JSStr :=
  if _h : n < 10 then [digitChar n]
  else natDigits (n / 10) ++ [digitChar (n % 10)]

/-- `String(num)` for an integer. -/
def intToJSStr (i : Int) : JSStr :=
  if i < 0 then '-' :: natDigits (-i).toNat else natDigits i.toNat

/-- `String.prototype.padStart(targetLength, "0")` on the decimal rendering:
the `padStart` helper of the date module. -/
def padNum (i : Int) (target : Nat) : JSStr :=
  let s := intToJSStr i
  List.replicate (target - s.length) '0' ++ s

/-- Numeric value of a digit string (the host parser's digit-group read). -/
def digitsVal (s : JSStr) : Nat :=
  s.foldl (fun acc c => acc * 10 + (c.toNat - 48)) 0

/-- `weekDayMap = ["日","一","二","三","四","五","六"]`. -/
def weekDayMap : List JSStr :=
  ["日".data, "一".data, "二".data, "三".data, "四".data, "五".data, "六".data]

/-- One global pass of `format.replace(re, cb)` where the regex alternation
is, in order: bracketed literal, `YYYY`, `MM`, `DD`, `HH`, `hh`, `mm`, `ss`,
`SSS`, `d`, `dd`, `A` — note the source lists single `d` BEFORE `dd`, so the
`dd` alternative can never match (the replacement it would produce is kept
for fidelity).  Characters matching no alternative are copied.  The fuel is
a termination device; each step consumes at least one character, so
`fuel = input length` suffices. -/
def formatScan (dv : DateVal) : Nat → JSStr → JSStr
  | 0, _ => []
  | _ + 1, [] => []
  | fuel + 1, '[' :: rest =>
    let inner := rest.takeWhile (fun c => c ≠ ']')
    let more := rest.drop inner.length
    if inner ≠ [] ∧ more.head? = some ']' then
      inner ++ formatScan dv fuel (more.drop 1)
    else
      '[' :: formatScan dv fuel rest
  | fuel + 1, c :: rest =>
    let s := c :: rest
    let hour12 := if Int.emod dv.hour 12 = 0 then 12 else Int.emod dv.hour 12
    if "YYYY".data.isPrefixOf s then padNum dv.year 4 ++ formatScan dv fuel (s.drop 4)
    else if "MM".data.isPrefixOf s then padNum (dv.month + 1) 2 ++ formatScan dv fuel (s.drop 2)
    else if "DD".data.isPrefixOf s then padNum dv.day 2 ++ formatScan dv fuel (s.drop 2)
    else if "HH".data.isPrefixOf s then padNum dv.hour 2 ++ formatScan dv fuel (s.drop 2)
    else if "hh".data.isPrefixOf s then padNum hour12 2 ++ formatScan dv fuel (s.drop 2)
    else if "mm".data.isPrefixOf s then padNum dv.minute 2 ++ formatScan dv fuel (s.drop 2)
    else if "ss".data.isPrefixOf s then padNum dv.second 2 ++ formatScan dv fuel (s.drop 2)
    else if "SSS".data.isPrefixOf s then padNum dv.ms 3 ++ formatScan dv fuel (s.drop 3)
    else if "d".data.isPrefixOf s then intToJSStr (getDay dv) ++ formatScan dv fuel (s.drop 1)
    else if "dd".data.isPrefixOf s then
      (weekDayMap.getD (getDay dv).toNat []) ++ formatScan dv fuel (s.drop 2)
    else if "A".data.isPrefixOf s then
      (if dv.hour < 12 then "上午".data else "下午".data) ++ formatScan dv fuel (s.drop 1)
    else c :: formatScan dv fuel rest

/-- `format(date, format = "YYYY-MM-DD HH:mm:ss")` on a valid date. -/
def format (dv : DateVal) (pattern : JSStr) : JSStr :=
  formatScan dv pattern.length pattern

/-- Days in a civil month (`m` 1-based) — the host calendar rule used when
validating a parsed `"YYYY/MM/DD"` date. -/
def daysInMonthNum (y m : Int) : Int :=
  if m = 2 then
    if (Int.emod y 4 = 0 ∧ Int.emod y 100 ≠ 0) ∨ Int.emod y 400 = 0 then 29 else 28
  else if m = 4 ∨ m = 6 ∨ m = 9 ∨ m = 11 then 30 else 31

/-- The date-like inputs accepted by `toDate`. -/
inductive DateInput where
  | date (d : DateVal)
  | num (t : Int)
  | str (s : JSStr)

/-- `toDate(date)`: a `Date` is returned as-is, a number via `new Date(ms)`;
a string matching `^\d{4}-\d{2}-\d{2}$` has its dashes replaced by slashes
and is parsed by `new Date("YYYY/MM/DD")`, giving the local civil date for
in-range components and an invalid date (`none`) otherwise.  General host
string parsing beyond that shape is outside the claims and modelled as
invalid. -/
def toDate : DateInput → Option DateVal
  | .date d => some d
  | .num t => some (fromTime t)
  | .str s =>
    match s with
    | [a, b, c, d, '-', e, f, '-', g, h] =>
      if ([a, b, c, d, e, f, g, h].all Char.isDigit) then
        let y : Int := (digitsVal [a, b, c, d] : Nat)
        let mo : Int := (digitsVal [e, f] : Nat)
        let dy : Int := (digitsVal [g, h] : Nat)
        if 1 ≤ mo ∧ mo ≤ 12 ∧ 1 ≤ dy ∧ dy ≤ daysInMonthNum y mo then
          some { year := y, month := mo - 1, day := dy
                 hour := 0, minute := 0, second := 0, ms := 0 }
        else none
      else none
    | _ => none

/-- C3: evaluation at the failing input.  `add(new Date(2024-01-15), 1,
"day")` returns the new date 2024-01-16 but ALSO leaves the argument `Date`
mutated to 2024-01-16 (because `toDate` hands back the same object and
`setDate` writes through it), contradicting the claim that the argument
still holds its original time value; `subtract` inherits the same mutation. -/
theorem C3_add_mutates_argument :
    (add ⟨2024, 0, 15, 0, 0, 0, 0⟩ 1 "day").1 = ⟨2024, 0, 16, 0, 0, 0, 0⟩ ∧
    (add ⟨2024, 0, 15, 0, 0, 0, 0⟩ 1 "day").2 = ⟨2024, 0, 16, 0, 0, 0, 0⟩ ∧
    (add ⟨2024, 0, 15, 0, 0, 0, 0⟩ 1 "day").2 ≠ ⟨2024, 0, 15, 0, 0, 0, 0⟩ ∧
    (subtract ⟨2024, 0, 15, 0, 0, 0, 0⟩ 1 "day").2 ≠ ⟨2024, 0, 15, 0, 0, 0, 0⟩ := by
  refine ⟨by decide, by decide, by decide, by decide⟩

/-- C7 counterexample: with `d1` one hour AFTER `d2` (same day), the code's
`Math.floor` gives `diff(d1, d2, "day") = -1`, while the claimed
truncation-toward-zero gives `0`. -/
theorem C7_diff_counterexample :
    diff ⟨2024, 0, 15, 1, 0, 0, 0⟩ ⟨2024, 0, 15, 0, 0, 0, 0⟩ "day" = -1 ∧
    claimedDiff ⟨2024, 0, 15, 1, 0, 0, 0⟩ ⟨2024, 0, 15, 0, 0, 0, 0⟩ "day" = 0 ∧
    diff ⟨2024, 0, 15, 1, 0, 0, 0⟩ ⟨2024, 0, 15, 0, 0, 0, 0⟩ "day" ≠
      claimedDiff ⟨2024, 0, 15, 1, 0, 0, 0⟩ ⟨2024, 0, 15, 0, 0, 0, 0⟩ "day" := by
  refine ⟨by decide, by decide, by decide⟩

/-- C7 (amended): for every pair of valid dates, `diff` in week/day/hour/
minute/second units is the millisecond difference divided by the unit length
ROUNDED DOWN (toward negative infinity, `Math.floor`), and the year/month
units are the calendar-component subtractions. -/
theorem C7_diff_spec (d1 d2 : DateVal) :
    diff d1 d2 "year" = d2.year - d1.year ∧
    diff d1 d2 "month" = (d2.year - d1.year) * 12 + d2.month - d1.month ∧
    diff d1 d2 "week" = Int.fdiv (getTime d2 - getTime d1) (7 * 24 * 60 * 60 * 1000) ∧
    diff d1 d2 "day" = Int.fdiv (getTime d2 - getTime d1) (24 * 60 * 60 * 1000) ∧
    diff d1 d2 "hour" = Int.fdiv (getTime d2 - getTime d1) (60 * 60 * 1000) ∧
    diff d1 d2 "minute" = Int.fdiv (getTime d2 - getTime d1) (60 * 1000) ∧
    diff d1 d2 "second" = Int.fdiv (getTime d2 - getTime d1) 1000 :=
  ⟨rfl, rfl, rfl, rfl, rfl, rfl, rfl⟩

unseal natDigits in
/-- C8: evaluation at the failing input.  For Friday 2024-03-15 the pattern
`"dd"` produces `"55"` — the regex alternation lists `d` before `dd`, so each
`d` is replaced by the numeric weekday — and not the documented Chinese
weekday name `"五"` (`weekDayMap[5]`). -/
theorem C8_format_dd_numeric :
    format ⟨2024, 2, 15, 0, 0, 0, 0⟩ "dd".data = "55".data ∧
    weekDayMap.getD (getDay ⟨2024, 2, 15, 0, 0, 0, 0⟩).toNat [] = "五".data ∧
    format ⟨2024, 2, 15, 0, 0, 0, 0⟩ "dd".data ≠ "五".data := by
  refine ⟨by decide, by decide, by decide⟩

/-- The well-formed `"YYYY-MM-DD"` calendar string with component values
`(y, m, d)`; every string of the claim's shape arises this way from the
values of its three digit groups. -/
def dateStr (y m d : Nat) : JSStr :=
  padNum (y : Int) 4 ++ '-' :: padNum (m : Int) 2 ++ '-' :: padNum (d : Int) 2

lemma digitChar_isDigit (k : Nat) : (digitChar k).isDigit = true := by
  unfold digitChar
  split_ifs <;> decide

lemma digitChar_toNat (k : Nat) (h : k ≤ 9) : (digitChar k).toNat = 48 + k := by
  interval_cases k <;> decide

lemma digitsVal_append (s : JSStr) (c : Char) :
    digitsVal (s ++ [c]) = 10 * digitsVal s + (c.toNat - 48) := by
  simp [digitsVal, List.foldl_append]
  omega

lemma natDigits_spec (n : Nat) :
    digitsVal (natDigits n) = n ∧ (∀ c ∈ natDigits n, c.isDigit = true) ∧
      natDigits n ≠ [] := by
  induction n using Nat.strong_induction_on with
  | _ n ih =>
    by_cases h : n < 10
    · rw [natDigits, dif_pos h]
      refine ⟨?_, ?_, by simp⟩
      · simp [digitsVal, digitChar_toNat n (by omega)]
      · intro c hc
        simp at hc
        subst hc
        exact digitChar_isDigit n
    · rw [natDigits, dif_neg h]
      have hih := ih (n / 10) (by omega)
      refine ⟨?_, ?_, by simp⟩
      · rw [digitsVal_append, hih.1, digitChar_toNat (n % 10) (by omega)]
        omega
      · intro c hc
        rcases List.mem_append.mp hc with hc | hc
        · exact hih.2.1 c hc
        · simp at hc
          subst hc
          exact digitChar_isDigit _

lemma natDigits_length_le (k : Nat) : ∀ n : Nat, n < 10 ^ k → 1 ≤ k →
    (natDigits n).length ≤ k := by
  induction k with
  | zero => omega
  | succ k ihk =>
    intro n h hk
    by_cases h10 : n < 10
    · rw [natDigits, dif_pos h10]
      simp
    · rw [natDigits, dif_neg h10]
      have hk1 : 1 ≤ k := by
        by_contra hc
        have hz : k = 0 := by omega
        subst hz
        simp at h
        omega
      have hdiv : n / 10 < 10 ^ k := by
        rw [Nat.div_lt_iff_lt_mul (by omega)]
        calc n < 10 ^ (k + 1) := h
        _ = 10 ^ k * 10 := by ring
      have := ihk (n / 10) hdiv hk1
      simp
      omega

lemma foldl_zeros (k : Nat) :
    List.foldl (fun acc c => acc * 10 + (c.toNat - 48)) 0 (List.replicate k '0') = 0 := by
  induction k with
  | zero => rfl
  | succ k ih => simpa [List.replicate_succ] using ih

lemma digitsVal_zeros (k : Nat) (s : JSStr) :
    digitsVal (List.replicate k '0' ++ s) = digitsVal s := by
  simp [digitsVal, List.foldl_append, foldl_zeros]

lemma padNum_spec (n t : Nat) (hn : n < 10 ^ t) (ht : 1 ≤ t) :
    (padNum (n : Int) t).length = t ∧ digitsVal (padNum (n : Int) t) = n ∧
      ∀ c ∈ padNum (n : Int) t, c.isDigit = true := by
  have hcast : ¬ ((n : Int) < 0) := by omega
  have hnn : (Int.toNat n) = n := Int.toNat_natCast n
  have hlen : (natDigits n).length ≤ t := natDigits_length_le t n hn ht
  simp only [padNum, intToJSStr, if_neg hcast, hnn]
  refine ⟨?_, ?_, ?_⟩
  · simp
    omega
  · rw [digitsVal_zeros]
    exact (natDigits_spec n).1
  · intro c hc
    rcases List.mem_append.mp hc with hc | hc
    · have : c = '0' := List.eq_of_mem_replicate hc
      subst this
      decide
    · exact (natDigits_spec n).2.1 c hc

lemma exists_len2 (s : JSStr) (h : s.length = 2) : ∃ a b, s = [a, b] := by
  rcases s with _ | ⟨a, _ | ⟨b, _ | _⟩⟩ <;> simp at h
  exact ⟨a, b, rfl⟩

lemma exists_len4 (s : JSStr) (h : s.length = 4) : ∃ a b c d, s = [a, b, c, d] := by
  rcases s with _ | ⟨a, _ | ⟨b, _ | ⟨c, _ | ⟨d, _ | _⟩⟩⟩⟩ <;> simp at h
  exact ⟨a, b, c, d, rfl⟩

lemma daysInMonthNum_le (y m : Int) : daysInMonthNum y m ≤ 31 := by
  unfold daysInMonthNum
  split_ifs <;> omega

lemma toDate_dateStr (y m d : Nat) (hy : y ≤ 9999) (hm1 : 1 ≤ m) (hm2 : m ≤ 12)
    (hd1 : 1 ≤ d) (hd2 : (d : Int) ≤ daysInMonthNum (y : Int) (m : Int)) :
    toDate (.str (dateStr y m d)) =
      some ⟨(y : Int), (m : Int) - 1, (d : Int), 0, 0, 0, 0⟩ := by
  have hy4 := padNum_spec y 4 (by omega) (by omega)
  have hm2' := padNum_spec m 2 (by omega) (by omega)
  have hd31 : d ≤ 31 := by
    have := daysInMonthNum_le (y : Int) (m : Int)
    omega
  have hd2' := padNum_spec d 2 (by omega) (by omega)
  obtain ⟨a, b, c, d4, h4⟩ := exists_len4 _ hy4.1
  obtain ⟨e, f, h2m⟩ := exists_len2 _ hm2'.1
  obtain ⟨g, h8, h2d⟩ := exists_len2 _ hd2'.1
  have hs : dateStr y m d = [a, b, c, d4, '-', e, f, '-', g, h8] := by
    simp [dateStr, h4, h2m, h2d]
  rw [hs, toDate]
  have ha := hy4.2.2 a (h4 ▸ (by simp))
  have hb := hy4.2.2 b (h4 ▸ (by simp))
  have hc := hy4.2.2 c (h4 ▸ (by simp))
  have hd4 := hy4.2.2 d4 (h4 ▸ (by simp))
  have he := hm2'.2.2 e (h2m ▸ (by simp))
  have hf := hm2'.2.2 f (h2m ▸ (by simp))
  have hg := hd2'.2.2 g (h2d ▸ (by simp))
  have hh := hd2'.2.2 h8 (h2d ▸ (by simp))
  have hvy : digitsVal [a, b, c, d4] = y := h4 ▸ hy4.2.1
  have hvm : digitsVal [e, f] = m := h2m ▸ hm2'.2.1
  have hvd : digitsVal [g, h8] = d := h2d ▸ hd2'.2.1
  simp only [List.all_cons, List.all_nil, ha, hb, hc, hd4, he, hf, hg, hh,
    Bool.and_self, Bool.and_true, if_true, hvy, hvm, hvd]
  rw [if_pos]
  exact ⟨by omega, by omega, by omega, by exact_mod_cast hd2⟩

lemma format_ymd (dv : DateVal) :
    format dv "YYYY-MM-DD".data =
      padNum dv.year 4 ++ '-' :: padNum (dv.month + 1) 2 ++ '-' :: padNum dv.day 2 := by
  simp +decide [format, formatScan]

/-- C9: for every well-formed `"YYYY-MM-DD"` string denoting a valid calendar
date, `format(toDate(s), "YYYY-MM-DD")` returns the same string. -/
theorem C9_format_toDate_roundtrip (y m d : Nat)
    (hy : y ≤ 9999) (hm1 : 1 ≤ m) (hm2 : m ≤ 12) (hd1 : 1 ≤ d)
    (hd2 : (d : Int) ≤ daysInMonthNum (y : Int) (m : Int)) :
    (toDate (.str (dateStr y m d))).map (fun dv => format dv "YYYY-MM-DD".data) =
      some (dateStr y m d) := by
  rw [toDate_dateStr y m d hy hm1 hm2 hd1 hd2]
  simp only [Option.map_some']
  rw [format_ymd]
  simp [dateStr]

/-- Witness for C9 at `"2024-03-15"`. -/
theorem C9_format_toDate_roundtrip_witness :
    (toDate (.str (dateStr 2024 3 15))).map (fun dv => format dv "YYYY-MM-DD".data) =
      some (dateStr 2024 3 15) :=
  C9_format_toDate_roundtrip 2024 3 15 (by decide) (by decide) (by decide)
    (by decide) (by decide)

end SuJsUtils
